import Mathlib

/-!
# Verification of photutils core: synthetic image generation and total error

Shallow embedding of `photutils/utils/errors.py` and `photutils/datasets/make.py`.
Arrays are modelled as `List ℚ` (element values are exact rationals standing for
the floating-point values in the source); the final `np.sqrt` of
`calc_total_error` is modelled by `Real.sqrt` over the rational total variance.
-/

namespace Photutils

/-! ## Total Error Combiner (`photutils/utils/errors.py`, `calc_total_error`)

The numeric path of `calc_total_error` (lines 156-187 of `errors.py`): the
`effective_gain` argument is either a scalar (broadcast via
`np.zeros(data.shape) + effective_gain`) or an array that must match the shape
of `data`.
-/

/-- The `effective_gain` argument: a scalar or an array
(`isiterable(effective_gain)` dichotomy in the source). -/
inductive GainArg where
  | scalar (g : ℚ)
  | array (gs : List ℚ)
deriving DecidableEq

/-- Broadcasting of `effective_gain` (source lines 156-162): a scalar becomes
`np.zeros(data.shape) + effective_gain`; an array must have the same shape as
`data`, else `ValueError`. -/
def broadcastGain (n : ℕ) : GainArg → Except String (List ℚ)
  | .scalar g => .ok (List.replicate n g)
  | .array gs =>
      if gs.length = n then .ok gs
      else .error "If input effective_gain is 2D, then it must have the same shape as the input data."

/-- Source lines 171-179: `source_variance = data.copy()`;
`source_variance[mask] /= effective_gain[mask]` where `mask = effective_gain != 0`;
`source_variance[~mask] = 0.0`; `source_variance = np.maximum(source_variance, 0)`. -/
def sourceVarianceArr (data geff : List ℚ) : List ℚ :=
  let sv := List.zipWith (fun x g => if g ≠ 0 then x / g else x) data geff
  let sv := List.zipWith (fun x g => if g = 0 then 0 else x) sv geff
  sv.map (fun x => max x 0)

/-- The numeric part of `calc_total_error` up to (but not including) the final
`np.sqrt`: validates the gain (broadcast, shape, non-negativity, lines 156-164)
and returns the element-wise total variance `bkg_error**2 + source_variance`
(line 187, inside the square root). -/
def calcTotalVariance (data bkg : List ℚ) (gain : GainArg) : Except String (List ℚ) :=
  match broadcastGain data.length gain with
  | .error e => .error e
  | .ok geff =>
      if geff.any (fun g => decide (g < 0)) then
        .error "effective_gain must be non-zero everywhere."
      else
        .ok (List.zipWith (fun b v => b ^ 2 + v) bkg (sourceVarianceArr data geff))

/-- The function `calc_total_error` (line 187): `np.sqrt(bkg_error**2 + source_variance)`,
element-wise over the total variance. -/
noncomputable def calc_total_error (data bkg : List ℚ) (gain : GainArg) :
    Except String (List ℝ) :=
  (calcTotalVariance data bkg gain).map
    (fun l : List ℚ => l.map (fun q : ℚ => Real.sqrt (q : ℝ)))

/-- The effective gain at pixel `i` (after broadcast). -/
def gainVal (gain : GainArg) (i : ℕ) : ℚ :=
  match gain with
  | .scalar g => g
  | .array gs => gs.getD i 0

/-- Modelled from the spec's wording of the shot-noise term (claim side, to be
compared with the source-side `sourceVarianceArr`): `s = I/g` except `s = 0`
where `g == 0`, and `s` clamped to `0` where `I/g` would be negative
(`I < 0`). -/
def specShotNoise (x g : ℚ) : ℚ :=
  if g = 0 then 0 else if x < 0 then 0 else x / g

lemma broadcastGain_ok_length {n : ℕ} {gain : GainArg} {geff : List ℚ}
    (h : broadcastGain n gain = .ok geff) : geff.length = n := by
  cases gain with
  | scalar g =>
      simp only [broadcastGain] at h
      cases h
      simp
  | array gs =>
      simp only [broadcastGain] at h
      by_cases hl : gs.length = n
      · simp [hl] at h; cases h; exact hl
      · simp [hl] at h

lemma broadcastGain_ok_getD {n : ℕ} {gain : GainArg} {geff : List ℚ}
    (h : broadcastGain n gain = .ok geff) {i : ℕ} (hi : i < n) :
    geff.getD i 0 = gainVal gain i := by
  cases gain with
  | scalar g =>
      simp only [broadcastGain] at h
      cases h
      rw [gainVal, List.getD_eq_getElem _ _ (by simpa using hi)]
      simp
  | array gs =>
      simp only [broadcastGain] at h
      by_cases hl : gs.length = n
      · simp [hl] at h; cases h; rfl
      · simp [hl] at h

lemma calcTotalVariance_ok {data bkg : List ℚ} {gain : GainArg} {var : List ℚ}
    (h : calcTotalVariance data bkg gain = .ok var) :
    ∃ geff, broadcastGain data.length gain = .ok geff ∧
      (∀ g ∈ geff, 0 ≤ g) ∧
      var = List.zipWith (fun b v => b ^ 2 + v) bkg (sourceVarianceArr data geff) := by
  rw [calcTotalVariance] at h
  split at h
  · exact absurd h (by simp)
  · rename_i geff hbg
    split at h
    · exact absurd h (by simp)
    · rename_i hneg
      rw [Bool.not_eq_true] at hneg
      refine ⟨geff, hbg, ?_, by injection h with h2; exact h2.symm⟩
      intro g hg
      have := List.any_eq_false.mp hneg g hg
      simpa using this

lemma sourceVarianceArr_length {data geff : List ℚ} (hl : geff.length = data.length) :
    (sourceVarianceArr data geff).length = data.length := by
  simp [sourceVarianceArr, hl]

lemma sourceVarianceArr_getElem {data geff : List ℚ} (hl : geff.length = data.length)
    {i : ℕ} (hi : i < (sourceVarianceArr data geff).length) :
    (sourceVarianceArr data geff)[i]
      = max (if geff.getD i 0 = 0 then 0
             else (if geff.getD i 0 ≠ 0 then data.getD i 0 / geff.getD i 0
                   else data.getD i 0)) 0 := by
  have hid : i < data.length := by rwa [sourceVarianceArr_length hl] at hi
  have hig : i < geff.length := by rwa [hl]
  simp only [sourceVarianceArr, List.getElem_map, List.getElem_zipWith]
  rw [List.getD_eq_getElem _ _ hid, List.getD_eq_getElem _ _ hig]

/-- For a non-negative gain value, the shot-noise term computed by the source
(divide where the gain is non-zero, zero where it is zero, then clamp with
`np.maximum(·, 0)`) agrees with the spec's description `specShotNoise`. -/
lemma code_shot_eq_spec (x g : ℚ) (hg : 0 ≤ g) :
    max (if g = 0 then 0 else (if g ≠ 0 then x / g else x)) 0 = specShotNoise x g := by
  rcases eq_or_lt_of_le hg with hg0 | hgpos
  · rw [← hg0]
    simp [specShotNoise]
  · have hgne : g ≠ 0 := ne_of_gt hgpos
    rw [if_neg hgne, if_pos hgne, specShotNoise, if_neg hgne]
    by_cases hx : x < 0
    · rw [if_pos hx]
      exact max_eq_right (le_of_lt (div_neg_of_neg_of_pos hx hgpos))
    · rw [if_neg hx]
      exact max_eq_left (div_nonneg (le_of_not_lt hx) hg)

/-- The total variance at pixel `i`: background variance plus the (clamped)
shot-noise term, which agrees with the spec's `specShotNoise` description. -/
lemma totalVariance_getElem {data bkg geff : List ℚ}
    (hlen : bkg.length = data.length) (hgl : geff.length = data.length)
    (hpos : ∀ g ∈ geff, 0 ≤ g) {i : ℕ} (hi : i < data.length) :
    (List.zipWith (fun b v => b ^ 2 + v) bkg (sourceVarianceArr data geff)).getD i 0
      = (bkg.getD i 0) ^ 2 + specShotNoise (data.getD i 0) (geff.getD i 0) := by
  have hsvl : (sourceVarianceArr data geff).length = data.length :=
    sourceVarianceArr_length hgl
  have hib : i < bkg.length := by rwa [hlen]
  have hisv : i < (sourceVarianceArr data geff).length := by rwa [hsvl]
  have hiz : i < (List.zipWith (fun b v : ℚ => b ^ 2 + v) bkg
      (sourceVarianceArr data geff)).length := by
    rw [List.length_zipWith, hsvl, hlen]
    simpa using hi
  rw [List.getD_eq_getElem _ _ hiz, List.getElem_zipWith]
  have hgmem : geff.getD i 0 ∈ geff := by
    rw [List.getD_eq_getElem _ _ (by rwa [hgl])]
    exact List.getElem_mem _
  rw [sourceVarianceArr_getElem hgl hisv, code_shot_eq_spec _ _ (hpos _ hgmem),
    List.getD_eq_getElem _ _ hib]

/-- Shared characterisation of the numeric output of `calc_total_error`:
on success, the pixel at index `i` equals
`sqrt(bkg_error[i]^2 + specShotNoise(data[i], gain[i]))`, and the broadcast
gain value at `i` is non-negative. -/
lemma calc_total_error_getD {data bkg : List ℚ} {gain : GainArg} {res : List ℝ}
    (hlen : bkg.length = data.length)
    (hok : calc_total_error data bkg gain = .ok res)
    {i : ℕ} (hi : i < data.length) :
    res.getD i 0
      = Real.sqrt (((bkg.getD i 0 : ℚ) : ℝ) ^ 2
          + ((specShotNoise (data.getD i 0) (gainVal gain i) : ℚ) : ℝ))
      ∧ 0 ≤ gainVal gain i := by
  cases hv : calcTotalVariance data bkg gain with
  | error e =>
      rw [calc_total_error, hv] at hok
      exact absurd hok (by simp [Except.map])
  | ok var =>
      obtain ⟨geff, hbg, hpos, hvar⟩ := calcTotalVariance_ok hv
      have hgl : geff.length = data.length := broadcastGain_ok_length hbg
      have hsvl : (sourceVarianceArr data geff).length = data.length :=
        sourceVarianceArr_length hgl
      have hvl : var.length = data.length := by
        rw [hvar, List.length_zipWith, hsvl, hlen]
        exact min_self _
      have hres : res = var.map (fun q : ℚ => Real.sqrt (q : ℝ)) := by
        rw [calc_total_error, hv] at hok
        simpa [Except.map] using hok.symm
      have hiv : i < var.length := by rwa [hvl]
      have hgd : geff.getD i 0 = gainVal gain i := broadcastGain_ok_getD hbg hi
      have hgmem : geff.getD i 0 ∈ geff := by
        rw [List.getD_eq_getElem _ _ (by rwa [hgl])]
        exact List.getElem_mem _
      have hgnn : 0 ≤ gainVal gain i := hgd ▸ hpos _ hgmem
      refine ⟨?_, hgnn⟩
      rw [hres, List.getD_eq_getElem _ _ (by simpa [List.length_map] using hiv),
        List.getElem_map]
      congr 1
      have hvq : var.getD i 0
          = (bkg.getD i 0) ^ 2 + specShotNoise (data.getD i 0) (gainVal gain i) := by
        rw [hvar, totalVariance_getElem hlen hgl hpos hi, hgd]
      rw [List.getD_eq_getElem _ _ hiv] at hvq
      rw [hvq]
      push_cast
      ring

/-- C1: for every valid input (matching shapes, gain validation passing so the
call returns normally), `calc_total_error` returns element-wise
`sqrt(bkg_error^2 + s)` where the shot-noise term `s` is `data/gain`, zeroed
where the gain is `0` and clamped to `0` where `data/gain` would be negative
(`data < 0`). -/
theorem calc_total_error_matches_formula (data bkg : List ℚ) (gain : GainArg)
    (res : List ℝ) (hlen : bkg.length = data.length)
    (hok : calc_total_error data bkg gain = .ok res)
    (i : ℕ) (hi : i < data.length) :
    res.getD i 0
      = Real.sqrt (((bkg.getD i 0 : ℚ) : ℝ) ^ 2
          + ((specShotNoise (data.getD i 0) (gainVal gain i) : ℚ) : ℝ)) :=
  (calc_total_error_getD hlen hok hi).1

/-- Witness for C1 at data `[4, -2]`, bkg_error `[3, 1]`, scalar gain `2`. -/
theorem calc_total_error_matches_formula_witness :
    ([(3 : ℚ), 1].length = [(4 : ℚ), -2].length) ∧
    calc_total_error [(4 : ℚ), -2] [(3 : ℚ), 1] (GainArg.scalar 2)
      = .ok [Real.sqrt ((11 : ℚ) : ℝ), Real.sqrt ((1 : ℚ) : ℝ)] ∧
    (0 : ℕ) < [(4 : ℚ), -2].length ∧
    [Real.sqrt ((11 : ℚ) : ℝ), Real.sqrt ((1 : ℚ) : ℝ)].getD 0 0
      = Real.sqrt ((([(3 : ℚ), 1].getD 0 0 : ℚ) : ℝ) ^ 2
          + ((specShotNoise ([(4 : ℚ), -2].getD 0 0)
              (gainVal (GainArg.scalar 2) 0) : ℚ) : ℝ)) := by
  have hvar : calcTotalVariance [(4 : ℚ), -2] [(3 : ℚ), 1] (GainArg.scalar 2)
      = .ok [11, 1] := by
    rw [calcTotalVariance]
    norm_num [broadcastGain, sourceVarianceArr, List.replicate]
  have hok : calc_total_error [(4 : ℚ), -2] [(3 : ℚ), 1] (GainArg.scalar 2)
      = .ok [Real.sqrt ((11 : ℚ) : ℝ), Real.sqrt ((1 : ℚ) : ℝ)] := by
    rw [calc_total_error, hvar]
    rfl
  exact ⟨by decide, hok, by decide,
    calc_total_error_matches_formula [(4 : ℚ), -2] [(3 : ℚ), 1] (GainArg.scalar 2)
      [Real.sqrt ((11 : ℚ) : ℝ), Real.sqrt ((1 : ℚ) : ℝ)]
      (by decide) hok 0 (by decide)⟩

/-- C5: on success, the total error is real-valued and non-negative; it is
`≥ bkg_error` at every pixel where `data < 0` or the gain is `0`, and strictly
`> bkg_error` at every pixel where `data > 0` and the gain is positive. -/
theorem calc_total_error_vs_background (data bkg : List ℚ) (gain : GainArg)
    (res : List ℝ) (hlen : bkg.length = data.length)
    (hok : calc_total_error data bkg gain = .ok res)
    (i : ℕ) (hi : i < data.length) :
    0 ≤ res.getD i 0 ∧
    ((data.getD i 0 < 0 ∨ gainVal gain i = 0) →
      ((bkg.getD i 0 : ℚ) : ℝ) ≤ res.getD i 0) ∧
    ((0 < data.getD i 0 ∧ 0 < gainVal gain i) →
      ((bkg.getD i 0 : ℚ) : ℝ) < res.getD i 0) := by
  obtain ⟨hres, hgnn⟩ := calc_total_error_getD hlen hok hi
  set b : ℝ := ((bkg.getD i 0 : ℚ) : ℝ) with hb
  set s : ℚ := specShotNoise (data.getD i 0) (gainVal gain i) with hs
  refine ⟨?_, ?_, ?_⟩
  · rw [hres]
    exact Real.sqrt_nonneg _
  · intro hcase
    have hs0 : s = 0 := by
      rw [hs, specShotNoise]
      rcases hcase with hx | hg
      · rcases eq_or_lt_of_le hgnn with hg0 | hgpos
        · rw [if_pos hg0.symm]
        · rw [if_neg (ne_of_gt hgpos), if_pos hx]
      · rw [if_pos hg]
    rw [hres, hs0]
    push_cast
    rw [add_zero, Real.sqrt_sq_eq_abs]
    exact le_abs_self b
  · rintro ⟨hx, hg⟩
    have hspos : 0 < s := by
      rw [hs, specShotNoise, if_neg (ne_of_gt hg), if_neg (asymm hx)]
      exact div_pos hx hg
    have hsr : (0 : ℝ) < ((s : ℚ) : ℝ) := by exact_mod_cast hspos
    rw [hres]
    calc b ≤ |b| := le_abs_self b
      _ = Real.sqrt (b ^ 2) := (Real.sqrt_sq_eq_abs b).symm
      _ < Real.sqrt (b ^ 2 + ((s : ℚ) : ℝ)) :=
          Real.sqrt_lt_sqrt (sq_nonneg b) (lt_add_of_pos_right _ hsr)

/-- Witness for C5 at data `[4, -2]`, bkg_error `[3, 1]`, scalar gain `2`,
pixel `1` (negative data) and pixel `0` (positive data, positive gain). -/
theorem calc_total_error_vs_background_witness :
    ([(3 : ℚ), 1].length = [(4 : ℚ), -2].length) ∧
    calc_total_error [(4 : ℚ), -2] [(3 : ℚ), 1] (GainArg.scalar 2)
      = .ok [Real.sqrt ((11 : ℚ) : ℝ), Real.sqrt ((1 : ℚ) : ℝ)] ∧
    (1 : ℕ) < [(4 : ℚ), -2].length ∧
    (0 ≤ [Real.sqrt ((11 : ℚ) : ℝ), Real.sqrt ((1 : ℚ) : ℝ)].getD 1 0 ∧
    (([(4 : ℚ), -2].getD 1 0 < 0 ∨ gainVal (GainArg.scalar 2) 1 = 0) →
      (([(3 : ℚ), 1].getD 1 0 : ℚ) : ℝ)
        ≤ [Real.sqrt ((11 : ℚ) : ℝ), Real.sqrt ((1 : ℚ) : ℝ)].getD 1 0) ∧
    ((0 < [(4 : ℚ), -2].getD 1 0 ∧ 0 < gainVal (GainArg.scalar 2) 1) →
      (([(3 : ℚ), 1].getD 1 0 : ℚ) : ℝ)
        < [Real.sqrt ((11 : ℚ) : ℝ), Real.sqrt ((1 : ℚ) : ℝ)].getD 1 0)) := by
  have hvar : calcTotalVariance [(4 : ℚ), -2] [(3 : ℚ), 1] (GainArg.scalar 2)
      = .ok [11, 1] := by
    rw [calcTotalVariance]
    norm_num [broadcastGain, sourceVarianceArr, List.replicate]
  have hok : calc_total_error [(4 : ℚ), -2] [(3 : ℚ), 1] (GainArg.scalar 2)
      = .ok [Real.sqrt ((11 : ℚ) : ℝ), Real.sqrt ((1 : ℚ) : ℝ)] := by
    rw [calc_total_error, hvar]
    rfl
  exact ⟨by decide, hok, by decide,
    calc_total_error_vs_background [(4 : ℚ), -2] [(3 : ℚ), 1] (GainArg.scalar 2)
      [Real.sqrt ((11 : ℚ) : ℝ), Real.sqrt ((1 : ℚ) : ℝ)]
      (by decide) hok 1 (by decide)⟩

/-! ## Unit validation of `calc_total_error` (`errors.py` lines 138-154)

Astropy units are modelled as exponent vectors over a small basis of base
units (`electron`, `photon`, plus two non-countable bases `adu` and `second`
to represent arbitrary other units); `Quantity` inputs are modelled as
`Option PhysUnit` (the unit tag of each of the three inputs, `none` when the
input is a plain array). -/

/-- A physical unit: integer exponents over a basis of base units. -/
structure PhysUnit where
  electron : ℤ
  photon : ℤ
  adu : ℤ
  second : ℤ
deriving DecidableEq

/-- Product of units (`data.unit * effective_gain.unit`): exponents add. -/
def PhysUnit.mul (a b : PhysUnit) : PhysUnit :=
  ⟨a.electron + b.electron, a.photon + b.photon, a.adu + b.adu, a.second + b.second⟩

/-- Base unit `u.electron`. -/
def electronUnit : PhysUnit := ⟨1, 0, 0, 0⟩

/-- Base unit `u.photon`. -/
def photonUnit : PhysUnit := ⟨0, 1, 0, 0⟩

/-- Base unit `u.adu` (an arbitrary non-countable unit). -/
def aduUnit : PhysUnit := ⟨0, 0, 1, 0⟩

/-- The errors raised by the unit-validation block of `calc_total_error`. -/
inductive UnitCheckError where
  /-- The `ValueError` of lines 141-143: some but not all inputs have units. -/
  | mixedUnits
  /-- The `ValueError` of lines 146-147: `data.unit != bkg_error.unit`. -/
  | mismatchedUnits
  /-- The `UnitsError` of lines 149-154: `data.unit * effective_gain.unit` is not
  in `count_units = [u.electron, u.photon]`. -/
  | nonCountProduct
deriving DecidableEq

/-- Whether an Except value is an error. -/
def exceptIsError {ε α : Type} : Except ε α → Bool
  | .error _ => true
  | .ok _ => false

/-- The unit-validation block of `calc_total_error` (lines 138-154): the
three cases of the match correspond exactly to `use_units` (all inputs have
units: check `data.unit == bkg_error.unit` and that
`data.unit * effective_gain.unit` is a count unit), no units at all
(`use_units` false, no `any(has_unit)`), and the remaining mixed cases
(`any(has_unit) and not all(has_unit)`, the `ValueError` of lines 141-143).
Returns `use_units` on success. -/
def check_units : Option PhysUnit → Option PhysUnit → Option PhysUnit →
    Except UnitCheckError Bool
  | some d, some b, some g =>
      if d ≠ b then .error .mismatchedUnits
      else if PhysUnit.mul d g = electronUnit ∨ PhysUnit.mul d g = photonUnit then .ok true
      else .error .nonCountProduct
  | none, none, none => .ok false
  | _, _, _ => .error .mixedUnits

/-- C6: `calc_total_error` raises a fatal input error whenever exactly a
proper nonempty subset of its three inputs carries a unit tag; when all three
carry units, it raises a fatal error iff the `data` and `bkg_error` units
differ or the product of the `data` and `effective_gain` units is not a
countable-quantity unit (electron or photon). -/
theorem calc_total_error_unit_check (du bu gu : Option PhysUnit) :
    (((du.isSome || bu.isSome || gu.isSome) = true ∧
      (du.isSome && bu.isSome && gu.isSome) = false) →
      exceptIsError (check_units du bu gu) = true) ∧
    (∀ d b g, du = some d → bu = some b → gu = some g →
      (exceptIsError (check_units du bu gu) = true ↔
        (d ≠ b ∨ (PhysUnit.mul d g ≠ electronUnit ∧ PhysUnit.mul d g ≠ photonUnit)))) := by
  constructor
  · rintro ⟨hany, hnotall⟩
    cases du <;> cases bu <;> cases gu <;> simp_all [check_units, exceptIsError]
  · rintro d b g rfl rfl rfl
    rw [check_units]
    by_cases hdb : d = b
    · subst hdb
      by_cases hcount : PhysUnit.mul d g = electronUnit ∨ PhysUnit.mul d g = photonUnit
      · rw [if_neg (by simp), if_pos hcount]
        simp [exceptIsError, hcount]
        tauto
      · rw [if_neg (by simp), if_neg hcount]
        simp [exceptIsError]
        tauto
    · rw [if_pos hdb]
      simp [exceptIsError, hdb]

/-- Witness for C6: `data` tagged with `adu`, the other two untagged, is
rejected; all three tagged with `data`/`bkg_error` units mismatched
(`adu` vs `electron`) is rejected. -/
theorem calc_total_error_unit_check_witness :
    (((some aduUnit : Option PhysUnit).isSome || (none : Option PhysUnit).isSome ||
        (none : Option PhysUnit).isSome) = true ∧
      ((some aduUnit : Option PhysUnit).isSome && (none : Option PhysUnit).isSome &&
        (none : Option PhysUnit).isSome) = false) ∧
    exceptIsError (check_units (some aduUnit) none none) = true ∧
    exceptIsError (check_units (some aduUnit) (some electronUnit) (some electronUnit))
      = true := by
  refine ⟨⟨by decide, by decide⟩, ?_, ?_⟩
  · exact (calc_total_error_unit_check (some aduUnit) none none).1 ⟨by decide, by decide⟩
  · exact ((calc_total_error_unit_check (some aduUnit) (some electronUnit)
      (some electronUnit)).2 aduUnit electronUnit electronUnit rfl rfl rfl).mpr
      (Or.inl (by decide))

/-! ## Frame behaviour of `calc_total_error` (`errors.py` lines 135-187)

To express that `calc_total_error` mutates neither `data`, `bkg_error` nor an
array-valued `effective_gain`, and that its result is a freshly allocated
array, the numpy arrays are modelled as references into a heap.  The source's
in-place operations (`source_variance[mask] /= ...`,
`source_variance[~mask] = 0.0`) become heap writes to the id allocated by
`data.copy()`; `np.maximum` and the final expression allocate fresh arrays. -/

/-- A heap of numpy arrays; an array reference is an index into `arrs`. -/
structure NpHeap where
  arrs : List (List ℚ)
deriving DecidableEq

/-- Read the array at reference `i`. -/
def NpHeap.get (h : NpHeap) (i : ℕ) : List ℚ := h.arrs.getD i []

/-- Overwrite the array at reference `i` (an in-place numpy operation). -/
def NpHeap.set (h : NpHeap) (i : ℕ) (v : List ℚ) : NpHeap := ⟨h.arrs.set i v⟩

/-- Allocate a fresh array holding `v`; returns the new heap and the fresh
reference. -/
def NpHeap.alloc (h : NpHeap) (v : List ℚ) : NpHeap × ℕ := (⟨h.arrs ++ [v]⟩, h.arrs.length)

/-- The `effective_gain` argument for the heap model: a scalar, or a
reference to a caller-owned array (aliased by `np.asanyarray`, not copied). -/
inductive GainRef where
  | scalar (g : ℚ)
  | array (gid : ℕ)
deriving DecidableEq

/-- Heap version of the gain broadcast (lines 156-162): a scalar builds the
fresh internal array `np.zeros(data.shape) + effective_gain`; an array-valued
gain is used in place after the shape check. -/
def broadcastGainHeap (h : NpHeap) (n : ℕ) : GainRef → Except String (List ℚ)
  | .scalar g => .ok (List.replicate n g)
  | .array gid =>
      if (h.get gid).length = n then .ok (h.get gid)
      else .error "If input effective_gain is 2D, then it must have the same shape as the input data."

/-- Heap model of the numeric part of `calc_total_error` (lines 156-187):
`source_variance = data.copy()` allocates; the two masked assignments write
in place to that copy; `np.maximum` allocates; the final
`bkg_error**2 + source_variance` (the array inside `np.sqrt`) allocates the
returned array.  The heap stores the rational total variance; the final
element-wise `np.sqrt` is a pure read-out (as in `calc_total_error`) and
allocates rather than mutates. -/
def calc_total_error_heap (h : NpHeap) (dId bId : ℕ) (gain : GainRef) :
    Except String (NpHeap × ℕ) :=
  match broadcastGainHeap h (h.get dId).length gain with
  | .error e => .error e
  | .ok geff =>
      if geff.any (fun g => decide (g < 0)) then
        .error "effective_gain must be non-zero everywhere."
      else
        let p1 := h.alloc (h.get dId)
        let h1 := p1.1
        let svId := p1.2
        let h2 := h1.set svId
          (List.zipWith (fun x g => if g ≠ 0 then x / g else x) (h1.get svId) geff)
        let h3 := h2.set svId
          (List.zipWith (fun x g => if g = 0 then 0 else x) (h2.get svId) geff)
        let p4 := h3.alloc ((h3.get svId).map (fun x => max x 0))
        let h4 := p4.1
        let svId2 := p4.2
        let p5 := h4.alloc (List.zipWith (fun b v => b ^ 2 + v) (h4.get bId) (h4.get svId2))
        .ok (p5.1, p5.2)

lemma NpHeap.get_set_ne (h : NpHeap) {i j : ℕ} (hne : i ≠ j) (v : List ℚ) :
    (h.set i v).get j = h.get j := by
  rw [NpHeap.get, NpHeap.set, List.getD_eq_getElem?_getD, List.getElem?_set_ne hne,
    ← List.getD_eq_getElem?_getD, NpHeap.get]

lemma NpHeap.get_alloc_lt (h : NpHeap) {j : ℕ} (hj : j < h.arrs.length) (v : List ℚ) :
    ((h.alloc v).1).get j = h.get j := by
  rw [NpHeap.get, NpHeap.alloc, List.getD_append _ _ _ _ hj, NpHeap.get]

lemma NpHeap.length_set (h : NpHeap) (i : ℕ) (v : List ℚ) :
    (h.set i v).arrs.length = h.arrs.length := by
  rw [NpHeap.set, List.length_set]

lemma NpHeap.length_alloc (h : NpHeap) (v : List ℚ) :
    ((h.alloc v).1).arrs.length = h.arrs.length + 1 := by
  rw [NpHeap.alloc]
  simp

/-- Reads below the pre-call heap bound are unchanged by the allocate /
write-to-the-copy / allocate / allocate pipeline of `calc_total_error_heap`. -/
lemma heapPipeline_get (h : NpHeap) (a w1 w2 m r : List ℚ) {j : ℕ}
    (hj : j < h.arrs.length) :
    (((((h.alloc a).1.set (h.alloc a).2 w1).set (h.alloc a).2 w2).alloc m).1.alloc r).1.get j
      = h.get j := by
  have hsv : (h.alloc a).2 = h.arrs.length := rfl
  have hne : (h.alloc a).2 ≠ j := by omega
  rw [NpHeap.get_alloc_lt _ (by
        simp only [NpHeap.length_alloc, NpHeap.length_set]
        omega),
    NpHeap.get_alloc_lt _ (by
        simp only [NpHeap.length_set, NpHeap.length_alloc]
        omega),
    NpHeap.get_set_ne _ hne, NpHeap.get_set_ne _ hne,
    NpHeap.get_alloc_lt _ hj]

/-- C10 (frame effect): a successful `calc_total_error` call leaves the
`data` array, the `bkg_error` array and an array-valued `effective_gain`
unchanged in the heap, and returns a reference that did not exist in the
pre-call heap (a freshly allocated array, in particular distinct from all
three inputs). -/
theorem calc_total_error_heap_frame (h : NpHeap) (dId bId : ℕ) (gain : GainRef)
    (h' : NpHeap) (rId : ℕ)
    (hd : dId < h.arrs.length) (hb : bId < h.arrs.length)
    (hg : ∀ gid, gain = .array gid → gid < h.arrs.length)
    (hok : calc_total_error_heap h dId bId gain = .ok (h', rId)) :
    h'.get dId = h.get dId ∧ h'.get bId = h.get bId ∧
    (∀ gid, gain = .array gid → h'.get gid = h.get gid) ∧
    h.arrs.length ≤ rId := by
  rw [calc_total_error_heap] at hok
  split at hok
  · exact absurd hok (by simp)
  · rename_i geff hgeff
    split at hok
    · exact absurd hok (by simp)
    · simp only [Except.ok.injEq, Prod.mk.injEq] at hok
      obtain ⟨hh', hrid⟩ := hok
      refine ⟨?_, ?_, ?_, ?_⟩
      · rw [← hh']
        exact heapPipeline_get h _ _ _ _ _ hd
      · rw [← hh']
        exact heapPipeline_get h _ _ _ _ _ hb
      · intro gid hgid
        rw [← hh']
        exact heapPipeline_get h _ _ _ _ _ (hg gid hgid)
      · rw [← hrid]
        simp only [NpHeap.alloc, NpHeap.set, List.length_append, List.length_set,
          List.length_cons, List.length_nil]
        omega

/-- Witness for C10: heap `[[4], [3]]`, data at reference `0`, bkg_error at
reference `1`, scalar gain `2`; the call succeeds, both inputs still hold
their original arrays, and the result reference `4` is fresh. -/
theorem calc_total_error_heap_frame_witness :
    (0 < (NpHeap.mk [[4], [3]]).arrs.length ∧ 1 < (NpHeap.mk [[4], [3]]).arrs.length) ∧
    calc_total_error_heap (NpHeap.mk [[4], [3]]) 0 1 (GainRef.scalar 2)
      = .ok (NpHeap.mk [[4], [3], [2], [2], [11]], 4) ∧
    ((NpHeap.mk [[4], [3], [2], [2], [11]]).get 0 = (NpHeap.mk [[4], [3]]).get 0 ∧
     (NpHeap.mk [[4], [3], [2], [2], [11]]).get 1 = (NpHeap.mk [[4], [3]]).get 1 ∧
     (∀ gid, GainRef.scalar 2 = GainRef.array gid →
        (NpHeap.mk [[4], [3], [2], [2], [11]]).get gid
          = (NpHeap.mk [[4], [3]]).get gid) ∧
     (NpHeap.mk [[4], [3]]).arrs.length ≤ 4) := by
  have hok : calc_total_error_heap (NpHeap.mk [[4], [3]]) 0 1 (GainRef.scalar 2)
      = .ok (NpHeap.mk [[4], [3], [2], [2], [11]], 4) := by
    rw [calc_total_error_heap]
    norm_num [broadcastGainHeap, NpHeap.get, NpHeap.set, NpHeap.alloc, List.replicate]
  refine ⟨⟨by decide, by decide⟩, hok, ?_⟩
  exact calc_total_error_heap_frame (NpHeap.mk [[4], [3]]) 0 1 (GainRef.scalar 2)
    (NpHeap.mk [[4], [3], [2], [2], [11]]) 4 (by decide) (by decide)
    (by intro gid hgid; exact absurd hgid (by simp)) hok

/-! ## Flux/amplitude conversion (`datasets/make.py` lines 554-558 and 635-639) -/

/-- The flux-to-amplitude conversion of `make_gaussian_sources_image`
(lines 555-558): `amplitude = flux / (2.0 * np.pi * xstd * ystd)`. -/
noncomputable def gaussianAmplitudeOfFlux (flux xstd ystd : ℝ) : ℝ :=
  flux / (2 * Real.pi * xstd * ystd)

/-- The amplitude-to-flux conversion of `make_gaussian_prf_sources_image`
(lines 636-639): `flux = amplitude * (2.0 * np.pi * sigma * sigma)`. -/
noncomputable def prfFluxOfAmplitude (amplitude sigma : ℝ) : ℝ :=
  amplitude * (2 * Real.pi * sigma * sigma)

/-- C9: the flux-to-amplitude conversion of the Gaussian wrapper and the
amplitude-to-flux conversion of the PRF wrapper compose to the identity on
flux, for every flux and every positive stddev configuration (the stddev
configuration shared by the two conversions is a single `sigma`, with
`x_stddev = y_stddev = sigma`, the circular case in which both wrappers
describe the same source; the identity is exact in the real model). -/
theorem flux_amplitude_round_trip (flux sigma : ℝ) (hs : 0 < sigma) :
    prfFluxOfAmplitude (gaussianAmplitudeOfFlux flux sigma sigma) sigma = flux := by
  rw [prfFluxOfAmplitude, gaussianAmplitudeOfFlux]
  have hpi : Real.pi ≠ 0 := Real.pi_ne_zero
  have hsne : sigma ≠ 0 := ne_of_gt hs
  field_simp

/-- Witness for C9 at flux `5`, sigma `1`. -/
theorem flux_amplitude_round_trip_witness :
    (0 : ℝ) < 1 ∧ prfFluxOfAmplitude (gaussianAmplitudeOfFlux 5 1 1) 1 = 5 :=
  ⟨by norm_num, flux_amplitude_round_trip 5 1 (by norm_num)⟩

/-! ## Poisson noise application (`datasets/make.py` lines 82-88)

`apply_poisson_noise` validates that no element of `data` is negative, then
draws one Poisson sample per element with that element as the rate.  The
numpy Poisson sampler is modelled as a function `sample : ℕ → ℚ → ℕ` giving
the drawn value at each flattened index for a given rate; the fact that a
Poisson draw with rate `0` is almost surely `0` is expressed as the
hypothesis `sample i 0 = 0` on the sampler. -/

/-- `apply_poisson_noise` (lines 82-88): `ValueError` if any element is
negative, otherwise one Poisson draw per element. -/
def apply_poisson_noise (sample : ℕ → ℚ → ℕ) (data : List ℚ) :
    Except String (List ℕ) :=
  if data.any (fun x => decide (x < 0)) then
    .error "data must not contain any negative values"
  else
    .ok ((List.range data.length).map (fun i => sample i (data.getD i 0)))

/-- C8: `apply_poisson_noise` fails with a domain error iff its input
contains a negative element; for a non-negative input it succeeds; on an
all-zero input it returns an all-zero array (with probability 1: a Poisson
draw at rate `0` is almost surely `0`, hypothesis `hzero` on the sampler). -/
theorem apply_poisson_noise_domain (sample : ℕ → ℚ → ℕ) (data : List ℚ)
    (hzero : ∀ i, sample i 0 = 0) :
    (exceptIsError (apply_poisson_noise sample data) = true ↔ ∃ x ∈ data, x < 0) ∧
    (∀ n, data = List.replicate n 0 →
      apply_poisson_noise sample data = .ok (List.replicate n 0)) := by
  constructor
  · rw [apply_poisson_noise]
    by_cases hneg : data.any (fun x => decide (x < 0)) = true
    · rw [if_pos hneg]
      simp only [exceptIsError, true_iff]
      simpa using hneg
    · rw [if_neg hneg]
      simp only [exceptIsError, Bool.false_eq_true, false_iff]
      rw [Bool.not_eq_true] at hneg
      rintro ⟨x, hx, hxneg⟩
      have := List.any_eq_false.mp hneg x hx
      simp at this
      exact absurd hxneg (not_lt.mpr this)
  · intro n hdata
    subst hdata
    rw [apply_poisson_noise, if_neg (by simp)]
    congr 1
    refine List.eq_replicate_iff.mpr ⟨by simp, ?_⟩
    intro b hb
    rw [List.mem_map] at hb
    obtain ⟨i, hi, hbi⟩ := hb
    rw [List.mem_range, List.length_replicate] at hi
    rw [← hbi, List.getD_eq_getElem _ _ (by simpa using hi), List.getElem_replicate,
      hzero i]

/-- A concrete sampler for the C8 witness: every draw is `0`. -/
def zeroSampler : ℕ → ℚ → ℕ := fun _ _ => 0

/-- Witness for C8: a sampler that is `0` at rate `0`, on the all-zero
two-element array and on an array with a negative element. -/
theorem apply_poisson_noise_domain_witness :
    (∀ i, zeroSampler i 0 = 0) ∧
    (exceptIsError (apply_poisson_noise zeroSampler [(-1 : ℚ), 2]) = true ↔
      ∃ x ∈ [(-1 : ℚ), 2], x < 0) ∧
    apply_poisson_noise zeroSampler (List.replicate 2 (0 : ℚ))
      = .ok (List.replicate 2 0) := by
  refine ⟨fun _ => rfl, ?_, ?_⟩
  · exact (apply_poisson_noise_domain zeroSampler [(-1 : ℚ), 2] (fun _ => rfl)).1
  · exact (apply_poisson_noise_domain zeroSampler (List.replicate 2 0)
      (fun _ => rfl)).2 2 rfl

/-! ## Random model parameter tables (`datasets/make.py` lines 169-247)

`make_random_models_table` builds a `QTable` and assigns one column per
entry of the `param_ranges` dict via `rng.uniform(lower, upper, n_sources)`.
The numpy random stream is modelled by an abstract `draw` function (the claim
holds for every stream); numpy's `size` validation rejects negative sizes.
An astropy table is an ordered list of named columns, and the length (row
count) of a table with no columns is `0`. -/

/-- An astropy `QTable`: ordered named numeric columns. -/
abbrev QTab := List (String × List ℚ)

/-- The number of rows of a table: the length of its columns (`len(QTable())`
is `0` when there are no columns). -/
def numRows : QTab → ℕ
  | [] => 0
  | (_, col) :: _ => col.length

/-- Numpy `rng.uniform(lower, upper, size=n)`: a negative `size` raises
`ValueError`; otherwise the stream `draw` supplies the values. -/
def rngUniformSized (draw : ℚ → ℚ → ℕ → List ℚ) (lo hi : ℚ) (n : ℤ) :
    Except String (List ℚ) :=
  if n < 0 then .error "negative dimensions are not allowed"
  else .ok (draw lo hi n.toNat)

/-- The column-assignment loop of `make_random_models_table` (lines 241-245):
`sources[param_name] = rng.uniform(lower, upper, n_sources)` for each entry
of `param_ranges`, in iteration order (dict keys are unique, so assignment
appends a fresh column). -/
def addColumns (draw : ℚ → ℚ → ℕ → List ℚ) (n : ℤ) :
    List (String × ℚ × ℚ) → QTab → Except String QTab
  | [], tab => .ok tab
  | (name, lo, hi) :: rest, tab =>
      match rngUniformSized draw lo hi n with
      | .error e => .error e
      | .ok col => addColumns draw n rest (tab ++ [(name, col)])

/-- `make_random_models_table` (lines 236-247): start from an empty table and
add one uniform column per parameter range. -/
def make_random_models_table (draw : ℚ → ℚ → ℕ → List ℚ) (n : ℤ)
    (paramRanges : List (String × ℚ × ℚ)) : Except String QTab :=
  addColumns draw n paramRanges []

lemma addColumns_ok (draw : ℚ → ℚ → ℕ → List ℚ) {n : ℤ} (hn : 0 ≤ n)
    (ranges : List (String × ℚ × ℚ)) :
    ∀ tab, exceptIsError (addColumns draw n ranges tab) = false := by
  induction ranges with
  | nil => intro tab; rfl
  | cons pr rest ih =>
      intro tab
      obtain ⟨name, lo, hi⟩ := pr
      rw [addColumns, rngUniformSized, if_neg (not_lt.mpr hn)]
      exact ih _

/-- A concrete uniform stream for witnesses and counterexamples: every draw
is the lower bound. -/
def constDraw : ℚ → ℚ → ℕ → List ℚ := fun lo _ k => List.replicate k lo

/-- C4 (amended): for every usable (non-negative) count `n` the call
succeeds for every parameter range map; with an empty range map it returns a
table with no columns, hence with `0` rows; and a failure implies `n` was
not a usable count. -/
theorem make_random_models_table_behaviour (draw : ℚ → ℚ → ℕ → List ℚ) (n : ℤ)
    (paramRanges : List (String × ℚ × ℚ)) :
    (0 ≤ n → exceptIsError (make_random_models_table draw n paramRanges) = false) ∧
    (make_random_models_table draw n []).map numRows = .ok 0 ∧
    (exceptIsError (make_random_models_table draw n paramRanges) = true → n < 0) := by
  refine ⟨?_, rfl, ?_⟩
  · intro hn
    exact addColumns_ok draw hn paramRanges []
  · intro herr
    by_contra hnlt
    rw [not_lt] at hnlt
    rw [make_random_models_table, addColumns_ok draw hnlt paramRanges []] at herr
    exact absurd herr (by simp)

/-- Counterexample for C4 as stated: with an empty parameter range map and
`n = 5`, the returned table has no columns and therefore `0` rows, not `5`
rows (`len(QTable())` is `0` regardless of `n_sources`). -/
theorem make_random_models_table_counterexample :
    (make_random_models_table constDraw 5 []).map numRows = .ok 0 ∧
    (make_random_models_table constDraw 5 []).map numRows ≠ .ok 5 := by
  refine ⟨rfl, fun h => ?_⟩
  have h0 : (Except.ok (0 : ℕ) : Except String ℕ) = .ok 5 := by
    calc (Except.ok (0 : ℕ) : Except String ℕ)
        = (make_random_models_table constDraw 5 []).map numRows := rfl
      _ = .ok 5 := h
  injection h0 with h1
  exact absurd h1 (by decide)

/-- Witness for C4 (amended) at `n = 3` with one parameter range and with the
empty range map. -/
theorem make_random_models_table_behaviour_witness :
    (0 : ℤ) ≤ 3 ∧
    exceptIsError (make_random_models_table constDraw 3 [("amplitude", 0, 1)]) = false ∧
    (make_random_models_table constDraw 3 []).map numRows = .ok 0 :=
  ⟨by decide,
   (make_random_models_table_behaviour constDraw 3 [("amplitude", 0, 1)]).1 (by decide),
   (make_random_models_table_behaviour constDraw 3 []).2.1⟩

/-! ## Model renderer (`datasets/make.py` lines 372-464)

`make_model_sources_image` temporarily overwrites the model's named
parameters row by row and evaluates the model; the `try/finally` guarantees
that the saved `init_params` are written back on every exit path.  The model
collaborator is external: its parameter state is a `String → ℚ` map, and its
two evaluation modes (`model(xidx, yidx)` for `oversample == 1`, and
`discretize_model(...)` otherwise) are abstract functions of that state which
may fail.  A table row is per-column access which may fail (a failing
parameter assignment). -/

/-- The mutable named-parameter state of an astropy model. -/
abbrev ModelParams := String → ℚ

/-- A row of the source table: per-column parameter assignment that can
fail. -/
abbrev SourceRow := String → Except String ℚ

/-- The assignment `setattr(model, param, value)`. -/
def setParam (st : ModelParams) (p : String) (v : ℚ) : ModelParams :=
  fun q => if q = p then v else st q

/-- The inner loop `for param in params_to_set: setattr(model, param,
source[param])` (lines 451-452): on a failure, the assignments already
performed persist and the error is reported. -/
def setRowParams (row : SourceRow) :
    List String → ModelParams → ModelParams × Option String
  | [], st => (st, none)
  | p :: ps, st =>
      match row p with
      | .error e => (st, some e)
      | .ok v => setRowParams row ps (setParam st p v)

/-- The body of the `try:` block (lines 449-459): per source row, assign the
row's parameters and add the model evaluation to the running image.  Returns
the model state reached together with the image or the first failure. -/
def renderRows (evalCenter evalOversampled : ModelParams → Except String (List ℚ))
    (oversample : ℕ) (ps : List String) :
    List SourceRow → ModelParams → List ℚ → ModelParams × Except String (List ℚ)
  | [], st, image => (st, .ok image)
  | row :: rest, st, image =>
      match setRowParams row ps st with
      | (st', some e) => (st', .error e)
      | (st', none) =>
          match (if oversample = 1 then evalCenter st' else evalOversampled st') with
          | .error e => (st', .error e)
          | .ok contrib =>
              renderRows evalCenter evalOversampled oversample ps rest st'
                (List.zipWith (fun a b => a + b) image contrib)

/-- `make_model_sources_image` (lines 435-464): compute `params_to_set` (the
table columns that are model parameters, lines 438-441), save `init_params`
(line 447), run the rendering loop, and in the `finally:` block (lines
460-462) write every saved parameter back, whatever the outcome.  Returns
the final model parameter state and the result (an error carries no
image). -/
def make_model_sources_image
    (evalCenter evalOversampled : ModelParams → Except String (List ℚ))
    (oversample : ℕ) (shapeN : ℕ) (colnames paramNames : List String)
    (rows : List SourceRow) (model : ModelParams) :
    ModelParams × Except String (List ℚ) :=
  let paramsToSet := colnames.filter (fun p => decide (p ∈ paramNames))
  let initParams := paramsToSet.map (fun p => (p, model p))
  let out := renderRows evalCenter evalOversampled oversample paramsToSet rows model
    (List.replicate shapeN 0)
  (initParams.foldl (fun st pv => setParam st pv.1 pv.2) out.1, out.2)

lemma foldl_setParam_of_notMem (l : List (String × ℚ)) {q : String}
    (hq : q ∉ l.map Prod.fst) (st : ModelParams) :
    (l.foldl (fun st pv => setParam st pv.1 pv.2) st) q = st q := by
  induction l generalizing st with
  | nil => rfl
  | cons pv rest ih =>
      rw [List.map_cons, List.mem_cons] at hq
      push_neg at hq
      rw [List.foldl_cons, ih hq.2, setParam, if_neg hq.1]

/-- Folding the saved `init_params` back restores every saved parameter to
its original value, whatever the intermediate state `st` is. -/
lemma foldl_setParam_restore (ps : List String) (st0 : ModelParams) :
    ∀ (st : ModelParams) {q : String}, q ∈ ps →
      ((ps.map (fun p => (p, st0 p))).foldl
        (fun st pv => setParam st pv.1 pv.2) st) q = st0 q := by
  induction ps with
  | nil =>
      intro st q hq
      exact absurd hq (List.not_mem_nil q)
  | cons p rest ih =>
      intro st q hq
      rw [List.map_cons, List.foldl_cons]
      by_cases hmem : q ∈ rest
      · exact ih _ hmem
      · have hqp : q = p := by
          rcases List.mem_cons.mp hq with h | h
          · exact h
          · exact absurd h hmem
        subst hqp
        rw [foldl_setParam_of_notMem _ (by simpa using hmem), setParam, if_pos rfl]

/-- C3: on every exit path of `make_model_sources_image` — the normal return
and failures raised while assigning a row's parameters or evaluating the
model — every model parameter named in the source table (`params_to_set`) is
restored to its pre-call value, and a failing call returns only the error,
never an image. -/
theorem make_model_sources_image_restores_params
    (evalCenter evalOversampled : ModelParams → Except String (List ℚ))
    (oversample shapeN : ℕ) (colnames paramNames : List String)
    (rows : List SourceRow) (model : ModelParams) (p : String)
    (hp : p ∈ colnames.filter (fun q => decide (q ∈ paramNames))) :
    (make_model_sources_image evalCenter evalOversampled oversample shapeN
        colnames paramNames rows model).1 p = model p ∧
    (∀ e img, (make_model_sources_image evalCenter evalOversampled oversample shapeN
        colnames paramNames rows model).2 = .error e →
      (make_model_sources_image evalCenter evalOversampled oversample shapeN
        colnames paramNames rows model).2 ≠ .ok img) := by
  constructor
  · simp only [make_model_sources_image]
    exact foldl_setParam_restore _ model _ hp
  · intro e img herr hok
    rw [herr] at hok
    exact absurd hok (by simp)

/-- A concrete row for the C3 witness: `amplitude` assigns, any other column
fails (a missing value). -/
def wRow : SourceRow := fun q => if q = "amplitude" then .ok 5 else .error "KeyError"

/-- A concrete model evaluation for the C3 witness. -/
def wEval : ModelParams → Except String (List ℚ) := fun _ => .ok [0]

/-- A concrete pre-call model state for the C3 witness. -/
def wModel : ModelParams := fun _ => 1

/-- Witness for C3: the single row assigns `amplitude := 5` and then fails on
`x_mean`; the render aborts and `amplitude` is back at its pre-call value. -/
theorem make_model_sources_image_restores_params_witness :
    "amplitude" ∈ ["amplitude", "x_mean"].filter
      (fun q => decide (q ∈ ["amplitude", "x_mean", "y_mean"])) ∧
    (make_model_sources_image wEval wEval 1 1 ["amplitude", "x_mean"]
      ["amplitude", "x_mean", "y_mean"] [wRow] wModel).1 "amplitude"
        = wModel "amplitude" :=
  ⟨by decide,
   (make_model_sources_image_restores_params wEval wEval 1 1 ["amplitude", "x_mean"]
      ["amplitude", "x_mean", "y_mean"] [wRow] wModel "amplitude" (by decide)).1⟩

/-! ## Non-overlap coordinate sampler (`datasets/make.py` lines 954-984)

`_make_nonoverlap_coords` rejection-samples 2D coordinates: each round draws
`ncoords` fresh candidates, stacks them onto the pool, queries each pooled
point's nearest *other* point (`KDTree(xycoords).query(xycoords, k=[2])`) and
keeps the points whose nearest-other distance is `>= min_separation`; at most
20 rounds run (`if niter > 20: break`), the pool is trimmed to `ncoords`,
and a warning is signalled when fewer remain.  The per-round uniform draws
are modelled by an abstract stream `batches` (the claims hold for every
stream).  Distances are compared via squares: the Euclidean distance is
`>= d` iff `d <= 0` or `d^2 <=` the squared distance (scipy reports `inf`
for the missing neighbour of a single pooled point, which always passes). -/

/-- A 2D coordinate. -/
abbrev Pt := ℚ × ℚ

/-- Squared Euclidean distance. -/
def dist2 (p q : Pt) : ℚ := (p.1 - q.1) ^ 2 + (p.2 - q.2) ^ 2

/-- The separation predicate between two pooled points: Euclidean distance
at least `d`, expressed over ℚ via squares. -/
def sepOk (d : ℚ) (p q : Pt) : Prop := d ≤ 0 ∨ d ^ 2 ≤ dist2 p q

instance (d : ℚ) (p q : Pt) : Decidable (sepOk d p q) := by
  rw [sepOk]
  infer_instance

/-- Whether pooled point `i` is kept by the round's mask
(`dist >= min_separation` for its nearest other pooled point, hence for
every other pooled point; vacuously true when the pool has a single point,
matching scipy's `inf` for the missing neighbour). -/
def keepPoint (pool : List Pt) (d : ℚ) (i : ℕ) : Bool :=
  decide (∀ j < pool.length, j ≠ i → sepOk d (pool.getD i (0, 0)) (pool.getD j (0, 0)))

/-- One round's filter `xycoords = xycoords[mask]`. -/
def filterKeep (pool : List Pt) (d : ℚ) : List Pt :=
  ((List.range pool.length).filter (keepPoint pool d)).map (fun i => pool.getD i (0, 0))

/-- The rejection loop (lines 962-977): while the pool is short of `ncoords`,
and at most 20 rounds (`niter` runs from 1 and the body is skipped once
`niter > 20`), stack the round's fresh batch and keep the separated points.
Returns the accepted pool and the number of rounds executed. -/
def nonoverlapLoop (batches : ℕ → List Pt) (ncoords : ℕ) (d : ℚ) :
    ℕ → List Pt → ℕ → List Pt × ℕ
  | 0, pts, rounds => (pts, rounds)
  | fuel + 1, pts, rounds =>
      if pts.length < ncoords then
        nonoverlapLoop batches ncoords d fuel
          (filterKeep (pts ++ batches rounds) d) (rounds + 1)
      else (pts, rounds)

/-- `_make_nonoverlap_coords` (lines 954-984, leading underscore dropped):
run the capped loop from the empty pool, trim to `ncoords`
(`xycoords[0:ncoords]`), and warn iff fewer than `ncoords` remain.  Returns
the coordinates and the warning flag. -/
def make_nonoverlap_coords (batches : ℕ → List Pt) (ncoords : ℕ) (d : ℚ) :
    List Pt × Bool :=
  let accepted := (nonoverlapLoop batches ncoords d 20 [] 0).1
  let res := accepted.take ncoords
  (res, decide (res.length < ncoords))

lemma dist2_comm (p q : Pt) : dist2 p q = dist2 q p := by
  rw [dist2, dist2]
  ring

lemma sepOk_symm {d : ℚ} {p q : Pt} (h : sepOk d p q) : sepOk d q p := by
  rw [sepOk, dist2_comm]
  exact h

/-- Every point kept by the mask is separated from every other pooled point,
so the filtered pool is pairwise separated. -/
lemma filterKeep_pairwise (pool : List Pt) (d : ℚ) :
    (filterKeep pool d).Pairwise (sepOk d) := by
  rw [filterKeep, List.pairwise_map]
  have h1 : ((List.range pool.length).filter (keepPoint pool d)).Pairwise (· < ·) :=
    List.Pairwise.sublist (List.filter_sublist _) (List.pairwise_lt_range _)
  refine List.Pairwise.imp_of_mem ?_ h1
  intro i j hi hj hij
  rw [List.mem_filter, List.mem_range] at hi hj
  obtain ⟨hilt, hikeep⟩ := hi
  obtain ⟨hjlt, hjkeep⟩ := hj
  rw [keepPoint] at hikeep
  exact of_decide_eq_true hikeep j hjlt (by omega)

/-- The loop only ever returns its (pairwise separated) filtered pool or the
initial pool. -/
lemma nonoverlapLoop_pairwise (batches : ℕ → List Pt) (ncoords : ℕ) (d : ℚ) :
    ∀ fuel (pts : List Pt) (rounds : ℕ), pts.Pairwise (sepOk d) →
      ((nonoverlapLoop batches ncoords d fuel pts rounds).1).Pairwise (sepOk d) := by
  intro fuel
  induction fuel with
  | zero =>
      intro pts rounds h
      exact h
  | succ fuel ih =>
      intro pts rounds h
      rw [nonoverlapLoop]
      split
      · exact ih _ _ (filterKeep_pairwise _ _)
      · exact h

lemma nonoverlapLoop_rounds (batches : ℕ → List Pt) (ncoords : ℕ) (d : ℚ) :
    ∀ fuel (pts : List Pt) (rounds : ℕ),
      (nonoverlapLoop batches ncoords d fuel pts rounds).2 ≤ rounds + fuel := by
  intro fuel
  induction fuel with
  | zero =>
      intro pts rounds
      simp [nonoverlapLoop]
  | succ fuel ih =>
      intro pts rounds
      rw [nonoverlapLoop]
      split
      · exact le_trans (ih _ _) (by omega)
      · simp

lemma sepOk_real_dist {d : ℚ} {p q : Pt} (h : sepOk d p q) :
    ((d : ℚ) : ℝ) ≤ Real.sqrt ((dist2 p q : ℚ) : ℝ) := by
  have hnn : (0 : ℝ) ≤ ((dist2 p q : ℚ) : ℝ) := by
    have h0 : (0 : ℚ) ≤ dist2 p q := by
      rw [dist2]
      positivity
    exact_mod_cast h0
  rcases h with hd | hsq
  · calc ((d : ℚ) : ℝ) ≤ 0 := by exact_mod_cast hd
      _ ≤ Real.sqrt _ := Real.sqrt_nonneg _
  · rcases le_or_lt ((d : ℚ) : ℝ) 0 with hd0 | hdpos
    · exact le_trans hd0 (Real.sqrt_nonneg _)
    · rw [Real.le_sqrt (le_of_lt hdpos) hnn]
      exact_mod_cast hsq

/-- C2: the sampler's result never exceeds the requested count, and any two
distinct returned points are at Euclidean distance at least `d`. -/
theorem nonoverlap_coords_invariant (batches : ℕ → List Pt) (ncoords : ℕ) (d : ℚ) :
    (make_nonoverlap_coords batches ncoords d).1.length ≤ ncoords ∧
    ∀ i j, i < (make_nonoverlap_coords batches ncoords d).1.length →
      j < (make_nonoverlap_coords batches ncoords d).1.length → i ≠ j →
      ((d : ℚ) : ℝ) ≤ Real.sqrt
        ((dist2 ((make_nonoverlap_coords batches ncoords d).1.getD i (0, 0))
          ((make_nonoverlap_coords batches ncoords d).1.getD j (0, 0)) : ℚ) : ℝ) := by
  have hpw : (make_nonoverlap_coords batches ncoords d).1.Pairwise (sepOk d) := by
    simp only [make_nonoverlap_coords]
    exact List.Pairwise.sublist (List.take_sublist _ _)
      (nonoverlapLoop_pairwise batches ncoords d 20 [] 0 List.Pairwise.nil)
  constructor
  · simp only [make_nonoverlap_coords]
    rw [List.length_take]
    exact min_le_left _ _
  · intro i j hi hj hij
    rw [List.getD_eq_getElem _ _ hi, List.getD_eq_getElem _ _ hj]
    rcases lt_or_gt_of_ne hij with hlt | hgt
    · exact sepOk_real_dist (List.pairwise_iff_getElem.mp hpw i j hi hj hlt)
    · rw [dist2_comm]
      exact sepOk_real_dist (List.pairwise_iff_getElem.mp hpw j i hj hi hgt)

/-- C7: the loop executes at most 20 rounds; the call returns the accepted
pool truncated to at most `ncoords`; and the warning flag is raised exactly
when fewer than `ncoords` coordinates are returned. -/
theorem nonoverlap_coords_round_cap (batches : ℕ → List Pt) (ncoords : ℕ) (d : ℚ) :
    (nonoverlapLoop batches ncoords d 20 [] 0).2 ≤ 20 ∧
    (make_nonoverlap_coords batches ncoords d).1
      = (nonoverlapLoop batches ncoords d 20 [] 0).1.take ncoords ∧
    ((make_nonoverlap_coords batches ncoords d).2 = true ↔
      (make_nonoverlap_coords batches ncoords d).1.length < ncoords) := by
  refine ⟨by simpa using nonoverlapLoop_rounds batches ncoords d 20 [] 0, rfl, ?_⟩
  simp only [make_nonoverlap_coords]
  exact decide_eq_true_iff

/-- A concrete batch stream for the C2 witness. -/
def wBatches : ℕ → List Pt := fun _ => [(0, 0), (1, 0)]

/-- Witness for C2 at two returned points with `d = 0`. -/
theorem nonoverlap_coords_invariant_witness :
    0 < (make_nonoverlap_coords wBatches 2 0).1.length ∧
    1 < (make_nonoverlap_coords wBatches 2 0).1.length ∧
    (0 : ℕ) ≠ 1 ∧
    (((0 : ℚ)) : ℝ) ≤ Real.sqrt
      ((dist2 ((make_nonoverlap_coords wBatches 2 0).1.getD 0 (0, 0))
        ((make_nonoverlap_coords wBatches 2 0).1.getD 1 (0, 0)) : ℚ) : ℝ) :=
  ⟨by decide, by decide, by decide,
   (nonoverlap_coords_invariant wBatches 2 0).2 0 1 (by decide) (by decide) (by decide)⟩

end Photutils
